import Mathlib

/-!
Shallow embedding of the colour model, the style descriptor and the gradient
engine of `ansi.py`, together with proofs of the specification claims.
Python integers are modelled by `Int`, Python numbers in general by `ℚ`
(every arithmetic operation appearing in the verified fragment is exact on
the rationals), and fallible Python code is modelled with `Except`.
-/

namespace BetterKeyboard

/-- Exceptions the embedded Python fragment can raise. -/
inductive PyError where
  | zeroDivision
  | typeError
  | valueError
  | keyError
  | indexError
deriving DecidableEq

/-- Embedding of the `RGB` dataclass: three colour channels.  Channels are
rational numbers because Python lets them become non-integral (the averaging
operator divides by two with true division). -/
structure RGB where
  red : ℚ
  green : ℚ
  blue : ℚ
deriving DecidableEq

/-- Dynamic Python values that can appear as the right operand of `+`. -/
inductive PyVal where
  | vRGB (c : RGB)
  | vStr
  | vInt (n : Int)
  | vBool (b : Bool)
  | vNone
deriving DecidableEq

/-- Embedding of `RGB.__add__`: averages two colours channel-wise and raises
`TypeError` on any operand that is not an `RGB`. -/
def RGB.add (self : RGB) (other : PyVal) : Except PyError RGB :=
  match other with
  | .vRGB o =>
      .ok ⟨(self.red + o.red) / 2, (self.green + o.green) / 2, (self.blue + o.blue) / 2⟩
  | _ => .error .typeError

/-- Dictionary produced by `RGB.to_dict`; fields are optional so that a
missing key can be represented on the `from_dict` side. -/
structure RGBDict where
  red : Option ℚ
  green : Option ℚ
  blue : Option ℚ
deriving DecidableEq

/-- Embedding of `RGB.to_dict`. -/
def RGB.to_dict (c : RGB) : RGBDict :=
  ⟨some c.red, some c.green, some c.blue⟩

/-- Embedding of `RGB.from_dict`; a missing key raises `KeyError` because the
source subscripts the dictionary directly. -/
def RGB.from_dict (data : RGBDict) : Except PyError RGB :=
  match data.red, data.green, data.blue with
  | some r, some g, some b => .ok ⟨r, g, b⟩
  | _, _, _ => .error .keyError

/-- The closed set of colour names of the `_colors` Literal type. -/
inductive NamedColor where
  | default
  | black
  | bright_black
  | blue
  | bright_blue
  | cyan
  | bright_cyan
  | green
  | bright_green
  | magenta
  | bright_magenta
  | red
  | bright_red
  | white
  | bright_white
  | yellow
  | bright_yellow
deriving DecidableEq

/-- A foreground or background colour: either a named colour or an RGB value
(the `Union[_colors, RGB]` type of the source). -/
inductive Color where
  | named (n : NamedColor)
  | rgb (c : RGB)
deriving DecidableEq

/-- Embedding of the `Ansi` style descriptor with the constructor defaults of
`Ansi.__init__`. -/
structure Ansi where
  fore : Color := .named .default
  back : Color := .named .default
  bold : Bool := false
  dim : Bool := false
  italic : Bool := false
  underline : Bool := false
  strikethrough : Bool := false
  inverse : Bool := false
  reset : Bool := true
deriving DecidableEq

/-- Embedding of the `Ansi + Ansi` branch of `Ansi.__add__`: foreground and
background fall back to the right operand when the left one is the default,
the boolean attributes are OR-ed, and `reset` is not passed to the
constructor, so the constructor default applies. -/
def Ansi.addAnsi (self other : Ansi) : Ansi :=
  { fore := if self.fore = Color.named NamedColor.default then other.fore else self.fore,
    back := if self.back = Color.named NamedColor.default then other.back else self.back,
    bold := self.bold || other.bold,
    dim := self.dim || other.dim,
    italic := self.italic || other.italic,
    underline := self.underline || other.underline,
    strikethrough := self.strikethrough || other.strikethrough,
    inverse := self.inverse || other.inverse }

/-- A value stored under the `fore` or `back` key of a style dictionary:
either a colour name or a nested RGB dictionary. -/
inductive ColorVal where
  | s (n : NamedColor)
  | d (rec : RGBDict)
deriving DecidableEq

/-- Dictionary produced by `Ansi.to_dict`; every field is optional so that
`Ansi.from_dict` can model the `dict.get` defaults of the source. -/
structure AnsiDict where
  fore : Option ColorVal
  back : Option ColorVal
  bold : Option Bool
  dim : Option Bool
  italic : Option Bool
  underline : Option Bool
  strikethrough : Option Bool
  inverse : Option Bool
  reset : Option Bool
deriving DecidableEq

/-- The conversion `Ansi.to_dict` applies to `fore` and `back`: an RGB value
is itself converted to a dictionary, a name is kept as it is. -/
def Color.toVal : Color → ColorVal
  | .named n => .s n
  | .rgb c => .d (RGB.to_dict c)

/-- Embedding of `Ansi.to_dict`. -/
def Ansi.to_dict (a : Ansi) : AnsiDict :=
  ⟨some a.fore.toVal, some a.back.toVal, some a.bold, some a.dim, some a.italic,
    some a.underline, some a.strikethrough, some a.inverse, some a.reset⟩

/-- The conversion `Ansi.from_dict` applies to the `fore` and `back` values:
everything that is not a name is fed to `RGB.from_dict`. -/
def Color.fromVal : ColorVal → Except PyError Color
  | .s n => .ok (.named n)
  | .d rec => (RGB.from_dict rec).map Color.rgb

/-- Embedding of `Ansi.from_dict`, with the documented defaults for every
missing key. -/
def Ansi.from_dict (data : AnsiDict) : Except PyError Ansi :=
  match Color.fromVal (data.fore.getD (.s .default)),
      Color.fromVal (data.back.getD (.s .default)) with
  | .ok f, .ok b =>
      .ok { fore := f, back := b,
            bold := data.bold.getD false,
            dim := data.dim.getD false,
            italic := data.italic.getD false,
            underline := data.underline.getD false,
            strikethrough := data.strikethrough.getD false,
            inverse := data.inverse.getD false,
            reset := data.reset.getD true }
  | .error e, _ => .error e
  | _, .error e => .error e

/-- Truncation toward zero: the behaviour of Python `int()` on a number. -/
def int_trunc (q : ℚ) : Int :=
  if 0 ≤ q then ⌊q⌋ else ⌈q⌉

/-- Round half to even: the behaviour of Python `round()` on a number. -/
def pyround (q : ℚ) : Int :=
  if q - ⌊q⌋ < 1 / 2 then ⌊q⌋
  else if 1 / 2 < q - ⌊q⌋ then ⌊q⌋ + 1
  else if ⌊q⌋ % 2 = 0 then ⌊q⌋ else ⌊q⌋ + 1

/-- Embedding of the loop body of `gradient`: the two-colour linear
interpolation.  `range(steps)` is empty for `steps ≤ 0`, hence `Int.toNat`. -/
def gradient (color1 color2 : RGB) (steps : Int) : List RGB :=
  (List.range steps.toNat).map fun (step : ℕ) =>
    ⟨(int_trunc (color1.red + (color2.red - color1.red) * (step : ℚ) / ((steps : ℚ) - 1)) : ℚ),
     (int_trunc (color1.green + (color2.green - color1.green) * (step : ℚ) / ((steps : ℚ) - 1)) : ℚ),
     (int_trunc (color1.blue + (color2.blue - color1.blue) * (step : ℚ) / ((steps : ℚ) - 1)) : ℚ)⟩

/-- Embedding of `gradient` including its failure behaviour: the division by
`steps - 1` executes exactly when the loop body runs, so `steps = 1` raises
`ZeroDivisionError` and every other step count returns normally. -/
def gradientE (color1 color2 : RGB) (steps : Int) : Except PyError (List RGB) :=
  if steps = 1 then .error .zeroDivision else .ok (gradient color1 color2 steps)

/-- The stable ascending sort by percentage performed by
`sorted(colors, key=lambda x: x[1])`. -/
def sortStops (colors : List (RGB × Int)) : List (RGB × Int) :=
  List.insertionSort (fun a b => a.2 ≤ b.2) colors

/-- The marker list `col_arr_perc` of `adv_gradient`: the sorted percentages
with a synthetic `0` in front when the lowest stop is not at `0` and a
synthetic `100` behind when the highest stop is not at `100`. -/
def markers (sorted_cols : List (RGB × Int)) : List Int :=
  (if (sorted_cols.headD (⟨0, 0, 0⟩, 0)).2 = 0 then [] else [0])
    ++ sorted_cols.map Prod.snd
    ++ (if (sorted_cols.getLastD (⟨0, 0, 0⟩, 0)).2 = 100 then [] else [100])

/-- Consecutive differences, as computed by the `perc` loop of
`adv_gradient`. -/
def diffs : List Int → List Int
  | a :: b :: rest => (b - a) :: diffs (b :: rest)
  | _ => []

/-- The middle loop of `adv_gradient`: pair number `i` of consecutive real
stops receives allocation number `i`; an allocation without a colour pair
would be an out-of-range index, and a failing `gradient` call propagates. -/
def gradSegs (cols : List RGB) : List Int → Except PyError (List RGB)
  | [] => .ok []
  | a :: rest =>
      match cols with
      | c1 :: c2 :: cs =>
          match gradientE c1 c2 a with
          | .error e => .error e
          | .ok g =>
              match gradSegs (c2 :: cs) rest with
              | .error e => .error e
              | .ok r => .ok (g ++ r)
      | _ => .error .indexError

/-- Body of `adv_gradient` on the sorted, non-empty stop list: allocations
are `round((span / sum(spans)) * steps)` per marker span; a synthetic leading
or trailing span gets a constant run of the boundary colour, the real spans
are interpolated by `gradient`. -/
def adv_gradient_sorted (first : RGB × Int) (rest : List (RGB × Int)) (steps : Int) :
    Except PyError (List RGB) :=
  let sorted_cols := first :: rest
  let lastStop := rest.getLastD first
  let perc := diffs (markers sorted_cols)
  let total : Int := perc.sum
  let steps_per := perc.map fun (i : Int) => pyround ((i : ℚ) / (total : ℚ) * (steps : ℚ))
  let leading : List RGB :=
    if first.2 = 0 then [] else List.replicate (steps_per.headD 0).toNat first.1
  let sp1 := if first.2 = 0 then steps_per else steps_per.tail
  let spMid := if lastStop.2 = 100 then sp1 else sp1.dropLast
  let trailing : List RGB :=
    if lastStop.2 = 100 then [] else List.replicate (sp1.getLastD 0).toNat lastStop.1
  match gradSegs (sorted_cols.map Prod.fst) spMid with
  | .error e => .error e
  | .ok mid => .ok (leading ++ mid ++ trailing)

/-- Embedding of `adv_gradient`: sort the stops, then run the segment
machinery; an empty stop list raises `IndexError` at `sorted_cols[0]`. -/
def adv_gradient (colors : List (RGB × Int)) (steps : Int) : Except PyError (List RGB) :=
  match sortStops colors with
  | [] => .error .indexError
  | first :: rest => adv_gradient_sorted first rest steps

/-- A valid RGB colour per the data model: three integral channels in the
byte range. -/
def RGB.IsValid (c : RGB) : Prop :=
  c.red.den = 1 ∧ 0 ≤ c.red ∧ c.red ≤ 255 ∧
  c.green.den = 1 ∧ 0 ≤ c.green ∧ c.green ≤ 255 ∧
  c.blue.den = 1 ∧ 0 ≤ c.blue ∧ c.blue ≤ 255

instance (c : RGB) : Decidable c.IsValid := by
  unfold RGB.IsValid
  infer_instance

/-- Truncating an integer value gives the integer back. -/
theorem int_trunc_intCast (n : ℤ) : int_trunc (n : ℚ) = n := by
  unfold int_trunc
  split <;> simp

/-- Truncating a rational with denominator one gives the value back. -/
theorem int_trunc_cast_of_den_eq_one {q : ℚ} (h : q.den = 1) :
    ((int_trunc q : ℤ) : ℚ) = q := by
  have hq : ((q.num : ℤ) : ℚ) = q := (Rat.den_eq_one_iff q).mp h
  rw [← hq, int_trunc_intCast]

/-- Claim C9: for every pair of RGB colours, the simple gradient with
`steps = 0` raises no error and returns the empty list, because the loop body
(and with it the division by `steps - 1`) never runs. -/
theorem gradient_zero_steps (a b : RGB) :
    gradientE a b 0 = .ok [] ∧ gradient a b 0 = [] :=
  ⟨rfl, rfl⟩

/-- Claim C2 evaluation: the simple gradient does not raise an explicit
invalid-argument error for `steps ≤ 1`; it silently returns `[]` at
`steps = 0` and raises a bare `ZeroDivisionError` at `steps = 1`. -/
theorem gradient_invalid_steps_behaviour :
    gradientE ⟨0, 0, 0⟩ ⟨255, 255, 255⟩ 0 = .ok [] ∧
    gradientE ⟨0, 0, 0⟩ ⟨255, 255, 255⟩ 1 = .error .zeroDivision ∧
    gradientE ⟨0, 0, 0⟩ ⟨255, 255, 255⟩ (-3) = .ok [] :=
  ⟨rfl, rfl, rfl⟩

/-- Claim C10: merging two style descriptors always yields `reset = true`,
whatever the operands' reset flags, because the merge never passes `reset` to
the constructor. -/
theorem ansi_merge_reset (s o : Ansi) : (Ansi.addAnsi s o).reset = true :=
  rfl

/-- Claim C7: merging `self` onto `other` keeps `self`'s foreground and
background unless they are the default (falling back to `other`'s), OR-s all
six boolean attributes, and in particular a default foreground merged onto a
blue one yields blue. -/
theorem ansi_merge_spec :
    (∀ s o : Ansi,
      (Ansi.addAnsi s o).fore
          = (if s.fore = Color.named NamedColor.default then o.fore else s.fore) ∧
      (Ansi.addAnsi s o).back
          = (if s.back = Color.named NamedColor.default then o.back else s.back) ∧
      (Ansi.addAnsi s o).bold = (s.bold || o.bold) ∧
      (Ansi.addAnsi s o).dim = (s.dim || o.dim) ∧
      (Ansi.addAnsi s o).italic = (s.italic || o.italic) ∧
      (Ansi.addAnsi s o).underline = (s.underline || o.underline) ∧
      (Ansi.addAnsi s o).strikethrough = (s.strikethrough || o.strikethrough) ∧
      (Ansi.addAnsi s o).inverse = (s.inverse || o.inverse)) ∧
    (Ansi.addAnsi { fore := Color.named NamedColor.default }
        { fore := Color.named NamedColor.blue }).fore = Color.named NamedColor.blue := by
  refine ⟨fun s o => ⟨rfl, rfl, rfl, rfl, rfl, rfl, rfl, rfl⟩, ?_⟩
  decide

/-- Claim C6: reconstructing a colour or a style descriptor from its
structural record round-trips losslessly, RGB sub-records included. -/
theorem record_roundtrip :
    (∀ c : RGB, RGB.from_dict (RGB.to_dict c) = .ok c) ∧
    (∀ a : Ansi, Ansi.from_dict (Ansi.to_dict a) = .ok a) := by
  refine ⟨fun _ => rfl, fun a => ?_⟩
  obtain ⟨f, bk, b1, b2, b3, b4, b5, b6, b7⟩ := a
  cases f <;> cases bk <;> rfl

/-- Claim C8: the averaging operation on RGB values returns the channel-wise
arithmetic mean, and any non-RGB operand raises a type error. -/
theorem rgb_add_spec (a b : RGB) (v : PyVal) (hv : ∀ c : RGB, v ≠ PyVal.vRGB c) :
    RGB.add a (.vRGB b)
        = .ok ⟨(a.red + b.red) / 2, (a.green + b.green) / 2, (a.blue + b.blue) / 2⟩ ∧
    RGB.add a v = .error .typeError := by
  refine ⟨rfl, ?_⟩
  cases v with
  | vRGB c => exact absurd rfl (hv c)
  | vStr => rfl
  | vInt n => rfl
  | vBool bb => rfl
  | vNone => rfl

/-- Witness for C8 at concrete inputs. -/
theorem rgb_add_spec_witness :
    (∀ c : RGB, PyVal.vNone ≠ PyVal.vRGB c) ∧
    (RGB.add ⟨1, 2, 3⟩ (.vRGB ⟨3, 4, 5⟩)
        = .ok ⟨(1 + 3) / 2, (2 + 4) / 2, (3 + 5) / 2⟩ ∧
      RGB.add ⟨1, 2, 3⟩ .vNone = .error .typeError) :=
  ⟨fun _ h => PyVal.noConfusion h,
    rgb_add_spec ⟨1, 2, 3⟩ ⟨3, 4, 5⟩ .vNone (fun _ h => PyVal.noConfusion h)⟩

/-- Claim C1: for valid colours and `steps ≥ 2` the simple gradient returns
exactly `steps` samples, sample `i` has each channel equal to
`colorA.channel + (colorB.channel - colorA.channel) * i / (steps - 1)`
truncated to an integer, the first sample is `colorA` and the last sample is
`colorB`. -/
theorem gradient_formula (a b : RGB) (steps : Int) (i : Nat)
    (h2 : 2 ≤ steps) (hi : i < steps.toNat) (hva : a.IsValid) (hvb : b.IsValid) :
    (gradient a b steps).length = steps.toNat ∧
    (gradient a b steps)[i]? = some
        ⟨(int_trunc (a.red + (b.red - a.red) * (i : ℚ) / ((steps : ℚ) - 1)) : ℚ),
         (int_trunc (a.green + (b.green - a.green) * (i : ℚ) / ((steps : ℚ) - 1)) : ℚ),
         (int_trunc (a.blue + (b.blue - a.blue) * (i : ℚ) / ((steps : ℚ) - 1)) : ℚ)⟩ ∧
    (gradient a b steps)[0]? = some a ∧
    (gradient a b steps)[steps.toNat - 1]? = some b := by
  have hidx : ∀ j : Nat, j < steps.toNat → (gradient a b steps)[j]? = some
      ⟨(int_trunc (a.red + (b.red - a.red) * (j : ℚ) / ((steps : ℚ) - 1)) : ℚ),
       (int_trunc (a.green + (b.green - a.green) * (j : ℚ) / ((steps : ℚ) - 1)) : ℚ),
       (int_trunc (a.blue + (b.blue - a.blue) * (j : ℚ) / ((steps : ℚ) - 1)) : ℚ)⟩ := by
    intro j hj
    simp only [gradient, List.getElem?_map, List.getElem?_range hj, Option.map_some']
  obtain ⟨har, _, _, hag, _, _, hab, _, _⟩ := hva
  obtain ⟨hbr, _, _, hbg, _, _, hbb, _, _⟩ := hvb
  refine ⟨by simp only [gradient, List.length_map, List.length_range], hidx i hi, ?_, ?_⟩
  · rw [hidx 0 (by omega)]
    obtain ⟨ar, ag, ab2⟩ := a
    simp only [Option.some.injEq, RGB.mk.injEq, Nat.cast_zero, mul_zero, zero_div, add_zero]
    exact ⟨int_trunc_cast_of_den_eq_one har, int_trunc_cast_of_den_eq_one hag,
      int_trunc_cast_of_den_eq_one hab⟩
  · rw [hidx (steps.toNat - 1) (by omega)]
    have hs0 : (0 : ℤ) ≤ steps := by omega
    have hcast : ((steps.toNat - 1 : ℕ) : ℚ) = (steps : ℚ) - 1 := by
      have hn : ((steps.toNat : ℕ) : ℚ) = (steps : ℚ) := by
        rw [← Int.cast_natCast, Int.toNat_of_nonneg hs0]
      rw [Nat.cast_sub (by omega), hn, Nat.cast_one]
    have hne : ((steps : ℚ) - 1) ≠ 0 := by
      have h2q : (2 : ℚ) ≤ (steps : ℚ) := by exact_mod_cast h2
      intro hzero
      linarith
    have hform : ∀ x y : ℚ, x + (y - x) * ((steps : ℚ) - 1) / ((steps : ℚ) - 1) = y := by
      intro x y
      rw [mul_div_assoc, div_self hne, mul_one]
      ring
    rw [hcast]
    obtain ⟨br, bg, bb2⟩ := b
    simp only [Option.some.injEq, RGB.mk.injEq, hform]
    exact ⟨int_trunc_cast_of_den_eq_one hbr, int_trunc_cast_of_den_eq_one hbg,
      int_trunc_cast_of_den_eq_one hbb⟩

/-- Witness for C1 on the spec's example gradient from black to white in
three steps. -/
theorem gradient_formula_witness :
    (2 ≤ (3 : ℤ) ∧ 1 < (3 : ℤ).toNat ∧
      RGB.IsValid ⟨0, 0, 0⟩ ∧ RGB.IsValid ⟨255, 255, 255⟩) ∧
    ((gradient ⟨0, 0, 0⟩ ⟨255, 255, 255⟩ 3).length = (3 : ℤ).toNat ∧
      (gradient ⟨0, 0, 0⟩ ⟨255, 255, 255⟩ 3)[1]? = some
        ⟨(int_trunc ((0 : ℚ) + ((255 : ℚ) - 0) * ((1 : ℕ) : ℚ) / (((3 : ℤ) : ℚ) - 1)) : ℚ),
         (int_trunc ((0 : ℚ) + ((255 : ℚ) - 0) * ((1 : ℕ) : ℚ) / (((3 : ℤ) : ℚ) - 1)) : ℚ),
         (int_trunc ((0 : ℚ) + ((255 : ℚ) - 0) * ((1 : ℕ) : ℚ) / (((3 : ℤ) : ℚ) - 1)) : ℚ)⟩ ∧
      (gradient ⟨0, 0, 0⟩ ⟨255, 255, 255⟩ 3)[0]? = some ⟨0, 0, 0⟩ ∧
      (gradient ⟨0, 0, 0⟩ ⟨255, 255, 255⟩ 3)[(3 : ℤ).toNat - 1]? = some ⟨255, 255, 255⟩) := by
  have hva : RGB.IsValid ⟨0, 0, 0⟩ := by
    refine ⟨?_, ?_, ?_, ?_, ?_, ?_, ?_, ?_, ?_⟩ <;> norm_num
  have hvb : RGB.IsValid ⟨255, 255, 255⟩ := by
    refine ⟨?_, ?_, ?_, ?_, ?_, ?_, ?_, ?_, ?_⟩ <;> norm_num
  exact ⟨⟨by norm_num, by norm_num, hva, hvb⟩,
    gradient_formula ⟨0, 0, 0⟩ ⟨255, 255, 255⟩ 3 1 (by norm_num) (by norm_num) hva hvb⟩

theorem diffs_cons_cons (x a : Int) (l : List Int) :
    diffs (x :: a :: l) = (a - x) :: diffs (a :: l) := rfl

theorem diffs_concat (a : Int) (l : List Int) (x : Int) :
    diffs ((a :: l) ++ [x]) = diffs (a :: l) ++ [x - l.getLastD a] := by
  induction l generalizing a with
  | nil => rfl
  | cons b t ih =>
      show diffs (a :: ((b :: t) ++ [x])) = _
      rw [show (b :: t) ++ [x] = b :: (t ++ [x]) from rfl, diffs_cons_cons,
        show b :: (t ++ [x]) = (b :: t) ++ [x] from rfl, ih b, List.getLastD_cons,
        diffs_cons_cons]
      rfl

theorem diffs_sum (a : Int) (l : List Int) :
    (diffs (a :: l)).sum = l.getLastD a - a := by
  induction l generalizing a with
  | nil => simp [diffs]
  | cons b t ih =>
      rw [diffs_cons_cons, List.sum_cons, ih b, List.getLastD_cons]
      ring

theorem diffs_length (a : Int) (l : List Int) : (diffs (a :: l)).length = l.length := by
  induction l generalizing a with
  | nil => rfl
  | cons b t ih => rw [diffs_cons_cons, List.length_cons, ih b, List.length_cons]

theorem diffs_nonneg {l : List Int} (h : List.Sorted (· ≤ ·) l) :
    ∀ x ∈ diffs l, 0 ≤ x := by
  induction l with
  | nil => intro x hx; cases hx
  | cons a t ih =>
      cases t with
      | nil => intro x hx; cases hx
      | cons b t2 =>
          intro x hx
          rw [diffs_cons_cons] at hx
          rcases List.mem_cons.mp hx with h1 | h2
          · have hab : a ≤ b := (List.sorted_cons.mp h).1 b (by simp)
            omega
          · exact ih (List.sorted_cons.mp h).2 x h2

theorem getLastD_map {α β : Type} (f : α → β) (l : List α) (d : α) :
    (l.map f).getLastD (f d) = f (l.getLastD d) := by
  induction l generalizing d with
  | nil => rfl
  | cons a t ih => rw [List.map_cons, List.getLastD_cons, List.getLastD_cons, ih a]

/-- Master decomposition of the sorted-stop machinery: the result of
`adv_gradient_sorted` is a leading constant run (present exactly when the
lowest percentage is not 0), then the interpolated middle segments, then a
trailing constant run (present exactly when the highest percentage is not
100), with every allocation equal to `round((span / 100) * steps)`. -/
theorem adv_gradient_sorted_eq (c0 : RGB) (p0 : Int) (rest : List (RGB × Int)) (steps : Int) :
    adv_gradient_sorted (c0, p0) rest steps =
      match gradSegs (c0 :: rest.map Prod.fst)
          ((diffs (p0 :: rest.map Prod.snd)).map fun (i : Int) =>
            pyround ((i : ℚ) / (100 : ℚ) * (steps : ℚ))) with
      | .error e => .error e
      | .ok mid =>
          .ok ((if p0 = 0 then [] else
                  List.replicate (pyround ((p0 : ℚ) / (100 : ℚ) * (steps : ℚ))).toNat c0)
            ++ mid
            ++ (if (rest.getLastD (c0, p0)).2 = 100 then [] else
                  List.replicate
                    (pyround (((100 - (rest.getLastD (c0, p0)).2 : Int) : ℚ) / (100 : ℚ)
                      * (steps : ℚ))).toNat
                    (rest.getLastD (c0, p0)).1)) := by
  rcases hL : rest.getLastD (c0, p0) with ⟨cl, pl⟩
  have hpm_last : (rest.map Prod.snd).getLastD p0 = pl := by
    have h := getLastD_map Prod.snd rest (c0, p0)
    rw [hL] at h
    exact h
  have hm : markers ((c0, p0) :: rest)
      = (if p0 = 0 then ([] : List Int) else [0]) ++ (p0 :: rest.map Prod.snd)
        ++ (if pl = 100 then ([] : List Int) else [100]) := by
    simp only [markers, List.headD_cons, List.getLastD_cons, List.map_cons, hL]
  simp only [adv_gradient_sorted, hm, hL, List.map_cons]
  by_cases h1 : p0 = 0 <;> by_cases h2 : pl = 100
  · -- no synthetic marker on either side
    subst h1
    subst h2
    have hsum : (diffs ((0 : Int) :: rest.map Prod.snd)).sum = 100 := by
      rw [diffs_sum, hpm_last]
      norm_num
    simp only [reduceIte, List.nil_append, List.append_nil]
    simp only [hsum]
    simp only [Int.cast_ofNat]
  · -- synthetic trailing marker only
    subst h1
    have hsum : (diffs ((0 : Int) :: (rest.map Prod.snd ++ [100]))).sum = 100 := by
      rw [diffs_sum, List.getLastD_concat]
      norm_num
    have hperc : diffs ((0 : Int) :: (rest.map Prod.snd ++ [100]))
        = diffs ((0 : Int) :: rest.map Prod.snd) ++ [100 - pl] := by
      rw [show (0 : Int) :: (rest.map Prod.snd ++ [100])
          = ((0 : Int) :: rest.map Prod.snd) ++ [100] from rfl, diffs_concat, hpm_last]
    simp only [reduceIte, if_neg h2, List.nil_append, List.append_nil, List.cons_append]
    simp only [hsum]
    simp only [hperc, List.map_append, List.map_cons, List.map_nil, List.dropLast_concat,
      List.getLastD_concat, Int.cast_ofNat]
  · -- synthetic leading marker only
    subst h2
    have hsum : (diffs ((0 : Int) :: p0 :: rest.map Prod.snd)).sum = 100 := by
      rw [diffs_sum, List.getLastD_cons, hpm_last]
      norm_num
    have hperc : diffs ((0 : Int) :: p0 :: rest.map Prod.snd)
        = p0 :: diffs (p0 :: rest.map Prod.snd) := by
      rw [diffs_cons_cons, sub_zero]
    simp only [reduceIte, if_neg h1, List.singleton_append, List.append_nil]
    simp only [hsum]
    simp only [hperc, List.map_cons, List.headD_cons, List.tail_cons, Int.cast_ofNat]
  · -- synthetic markers on both sides
    have hsum : (diffs ((0 : Int) :: p0 :: (rest.map Prod.snd ++ [100]))).sum = 100 := by
      rw [diffs_sum, List.getLastD_cons, List.getLastD_concat]
      norm_num
    have hperc : diffs ((0 : Int) :: p0 :: (rest.map Prod.snd ++ [100]))
        = p0 :: (diffs (p0 :: rest.map Prod.snd) ++ [100 - pl]) := by
      rw [diffs_cons_cons, sub_zero, show p0 :: (rest.map Prod.snd ++ [100])
          = (p0 :: rest.map Prod.snd) ++ [100] from rfl, diffs_concat, hpm_last]
    simp only [if_neg h1, if_neg h2, List.singleton_append, List.cons_append, List.nil_append]
    simp only [hsum]
    simp only [hperc, List.map_append, List.map_cons, List.map_nil, List.headD_cons,
      List.tail_cons, List.dropLast_concat, List.getLastD_concat, Int.cast_ofNat]

/-- Rounding an integer value gives the integer back. -/
theorem pyround_intCast (n : Int) : pyround ((n : ℤ) : ℚ) = n := by
  unfold pyround
  rw [Int.floor_intCast]
  norm_num

/-- Claim C3: on the two-stop specification `[(a, 0), (b, 100)]` the advanced
gradient returns exactly the simple gradient between the two colours. -/
theorem adv_gradient_two_stops (a b : RGB) (steps : Int) (h2 : 2 ≤ steps) :
    adv_gradient [(a, 0), (b, 100)] steps = .ok (gradient a b steps) := by
  have hsort : sortStops [(a, 0), (b, 100)] = [(a, 0), (b, 100)] := by
    apply List.Sorted.insertionSort_eq
    simp [List.pairwise_cons]
  have hne : steps ≠ 1 := by omega
  simp only [adv_gradient, hsort]
  rw [adv_gradient_sorted_eq]
  simp [diffs, gradSegs, gradientE, hne, pyround_intCast]

/-- Witness for C3 at the claim's own instance: red to blue in ten steps. -/
theorem adv_gradient_two_stops_witness :
    2 ≤ (10 : ℤ) ∧
    adv_gradient [(⟨255, 0, 0⟩, 0), (⟨0, 0, 255⟩, 100)] 10
      = .ok (gradient ⟨255, 0, 0⟩ ⟨0, 0, 255⟩ 10) :=
  ⟨by norm_num, adv_gradient_two_stops ⟨255, 0, 0⟩ ⟨0, 0, 255⟩ 10 (by norm_num)⟩

/-- Claim C5: for a sorted stop list the advanced gradient surrounds the
interpolated middle segments with constant runs: a leading run of the first
stop's colour of exactly the synthetic leading segment's allocation when the
lowest percentage is not 0, and a trailing run of the last stop's colour of
exactly the synthetic trailing segment's allocation when the highest
percentage is not 100; no interpolation happens on those runs. -/
theorem adv_gradient_synthetic_runs (c0 : RGB) (p0 : Int) (rest : List (RGB × Int))
    (steps : Int) (hsorted : List.Sorted (fun x y => x.2 ≤ y.2) ((c0, p0) :: rest)) :
    adv_gradient ((c0, p0) :: rest) steps =
      match gradSegs (c0 :: rest.map Prod.fst)
          ((diffs (p0 :: rest.map Prod.snd)).map fun (i : Int) =>
            pyround ((i : ℚ) / (100 : ℚ) * (steps : ℚ))) with
      | .error e => .error e
      | .ok mid =>
          .ok ((if p0 = 0 then [] else
                  List.replicate (pyround ((p0 : ℚ) / (100 : ℚ) * (steps : ℚ))).toNat c0)
            ++ mid
            ++ (if (rest.getLastD (c0, p0)).2 = 100 then [] else
                  List.replicate
                    (pyround (((100 - (rest.getLastD (c0, p0)).2 : Int) : ℚ) / (100 : ℚ)
                      * (steps : ℚ))).toNat
                    (rest.getLastD (c0, p0)).1)) := by
  have hsort : sortStops ((c0, p0) :: rest) = (c0, p0) :: rest :=
    List.Sorted.insertionSort_eq hsorted
  simp only [adv_gradient, hsort]
  exact adv_gradient_sorted_eq c0 p0 rest steps

/-- Witness for C5: a red stop at 20 percent and a blue stop at 80 percent
with five steps, which produces a leading red run and a trailing blue run. -/
theorem adv_gradient_synthetic_runs_witness :
    List.Sorted (fun (x : RGB × Int) (y : RGB × Int) => x.2 ≤ y.2)
        (((⟨255, 0, 0⟩ : RGB), (20 : Int)) :: ([((⟨0, 0, 255⟩ : RGB), (80 : Int))])) ∧
    adv_gradient (((⟨255, 0, 0⟩ : RGB), (20 : Int)) :: [((⟨0, 0, 255⟩ : RGB), (80 : Int))]) 5 =
      match gradSegs ((⟨255, 0, 0⟩ : RGB)
            :: ([((⟨0, 0, 255⟩ : RGB), (80 : Int))]).map Prod.fst)
          ((diffs ((20 : Int)
              :: ([((⟨0, 0, 255⟩ : RGB), (80 : Int))]).map Prod.snd)).map fun (i : Int) =>
            pyround ((i : ℚ) / (100 : ℚ) * ((5 : ℤ) : ℚ))) with
      | .error e => .error e
      | .ok mid =>
          .ok ((if (20 : Int) = 0 then [] else
                  List.replicate
                    (pyround (((20 : Int) : ℚ) / (100 : ℚ) * ((5 : ℤ) : ℚ))).toNat
                    (⟨255, 0, 0⟩ : RGB))
            ++ mid
            ++ (if (([((⟨0, 0, 255⟩ : RGB), (80 : Int))]).getLastD
                    ((⟨255, 0, 0⟩ : RGB), (20 : Int))).2 = 100 then [] else
                  List.replicate
                    (pyround (((100 - (([((⟨0, 0, 255⟩ : RGB), (80 : Int))]).getLastD
                        ((⟨255, 0, 0⟩ : RGB), (20 : Int))).2 : Int) : ℚ) / (100 : ℚ)
                      * ((5 : ℤ) : ℚ))).toNat
                    (([((⟨0, 0, 255⟩ : RGB), (80 : Int))]).getLastD
                      ((⟨255, 0, 0⟩ : RGB), (20 : Int))).1)) := by
  have hs : List.Sorted (fun (x : RGB × Int) (y : RGB × Int) => x.2 ≤ y.2)
      (((⟨255, 0, 0⟩ : RGB), (20 : Int)) :: [((⟨0, 0, 255⟩ : RGB), (80 : Int))]) := by
    simp [List.pairwise_cons]
  exact ⟨hs, adv_gradient_synthetic_runs ⟨255, 0, 0⟩ 20 [((⟨0, 0, 255⟩ : RGB), (80 : Int))] 5 hs⟩

/-- Rounding to the nearest integer moves a value by at most one half. -/
theorem pyround_err (q : ℚ) : |((pyround q : ℤ) : ℚ) - q| ≤ 1 / 2 := by
  have hfl : ((⌊q⌋ : ℤ) : ℚ) ≤ q := Int.floor_le q
  have hfu : q < ((⌊q⌋ : ℤ) : ℚ) + 1 := Int.lt_floor_add_one q
  unfold pyround
  split_ifs with h1 h2 h3 <;>
    (rw [abs_le]; push_cast; constructor <;> linarith)

/-- Rounding a non-negative value gives a non-negative integer. -/
theorem pyround_nonneg {q : ℚ} (h : 0 ≤ q) : 0 ≤ pyround q := by
  have h0 : (0 : ℤ) ≤ ⌊q⌋ := Int.le_floor.mpr (by exact_mod_cast h)
  unfold pyround
  split_ifs <;> omega

/-- A successful `gradient` call returns exactly its allocation of samples. -/
theorem gradientE_length {c1 c2 : RGB} {a : Int} {g : List RGB}
    (h : gradientE c1 c2 a = .ok g) : g.length = a.toNat := by
  unfold gradientE at h
  split_ifs at h
  injection h with h
  rw [← h]
  simp [gradient]

/-- A successful run of the middle loop returns one sample per allocated
step, summed over the segments. -/
theorem gradSegs_length (allocs : List Int) (cols : List RGB) (l : List RGB)
    (h : gradSegs cols allocs = .ok l) :
    l.length = (allocs.map Int.toNat).sum := by
  induction allocs generalizing cols l with
  | nil =>
      simp only [gradSegs] at h
      injection h with h
      rw [← h]
      rfl
  | cons a as ih =>
      cases cols with
      | nil => exact absurd h (by simp [gradSegs])
      | cons c1 t =>
          cases t with
          | nil => exact absurd h (by simp [gradSegs])
          | cons c2 t2 =>
              rw [show gradSegs (c1 :: c2 :: t2) (a :: as)
                  = match gradientE c1 c2 a with
                    | .error e => .error e
                    | .ok g =>
                        match gradSegs (c2 :: t2) as with
                        | .error e => .error e
                        | .ok r => .ok (g ++ r) from rfl] at h
              rcases hg : gradientE c1 c2 a with e | g <;> rw [hg] at h
              · cases h
              · rcases hr : gradSegs (c2 :: t2) as with e2 | r <;> rw [hr] at h
                · cases h
                · injection h with h
                  rw [← h]
                  simp [List.length_append, gradientE_length hg, ih (c2 :: t2) r hr]

/-- Casting a sum of truncations of non-negative integers back to `ℤ`. -/
theorem sum_toNat_eq {l : List Int} (h : ∀ x ∈ l, 0 ≤ x) :
    ((l.map Int.toNat).sum : ℤ) = l.sum := by
  induction l with
  | nil => rfl
  | cons a t ih =>
      simp only [List.map_cons, List.sum_cons, Nat.cast_add]
      rw [Int.toNat_of_nonneg (h a (by simp)),
        ih (fun x hx => h x (List.mem_cons_of_mem a hx))]

/-- The total allocation over a span list deviates from the proportional
ideal by at most half a step per span. -/
theorem alloc_sum_bound (xs : List Int) (steps : Int) :
    |((((xs.map fun (i : Int) => pyround ((i : ℚ) / (100 : ℚ) * (steps : ℚ))).sum : ℤ) : ℚ)
        - ((xs.sum : ℤ) : ℚ) / 100 * (steps : ℚ))| ≤ (xs.length : ℚ) / 2 := by
  induction xs with
  | nil => simp
  | cons a t ih =>
      simp only [List.map_cons, List.sum_cons, List.length_cons]
      have h1 := pyround_err ((a : ℚ) / (100 : ℚ) * (steps : ℚ))
      have hsplit :
          ((((pyround ((a : ℚ) / (100 : ℚ) * (steps : ℚ))
              + ((t.map fun (i : Int) => pyround ((i : ℚ) / (100 : ℚ) * (steps : ℚ))).sum) : ℤ)) : ℚ)
            - (((a + t.sum : ℤ)) : ℚ) / 100 * (steps : ℚ))
          = (((pyround ((a : ℚ) / (100 : ℚ) * (steps : ℚ)) : ℤ) : ℚ)
              - (a : ℚ) / (100 : ℚ) * (steps : ℚ))
            + ((((t.map fun (i : Int) => pyround ((i : ℚ) / (100 : ℚ) * (steps : ℚ))).sum : ℤ) : ℚ)
              - ((t.sum : ℤ) : ℚ) / 100 * (steps : ℚ)) := by
        push_cast
        ring
      rw [hsplit]
      calc |_| ≤ _ := abs_add _ _
        _ ≤ 1 / 2 + (t.length : ℚ) / 2 := add_le_add h1 ih
        _ = ((t.length + 1 : ℕ) : ℚ) / 2 := by push_cast; ring

/-- Claim C4: whenever the advanced gradient returns a list for a non-empty
stop list with percentages in the range and a positive step count, the
length of that list differs from the requested step count by at most the
number of segments (consecutive marker pairs): each segment contributes
exactly its rounded proportional allocation and the rounding deviation is
accepted, not corrected. -/
theorem adv_gradient_length_bound (stops : List (RGB × Int)) (steps : Int)
    (hne : stops ≠ [])
    (hrange : ∀ s ∈ stops, 0 ≤ s.2 ∧ s.2 ≤ 100)
    (hpos : 0 < steps)
    (res : List RGB)
    (hok : adv_gradient stops steps = .ok res) :
    |(res.length : ℤ) - steps| ≤ ((markers (sortStops stops)).length : ℤ) - 1 := by
  haveI : IsTotal (RGB × Int) (fun a b => a.2 ≤ b.2) := ⟨fun a b => le_total a.2 b.2⟩
  haveI : IsTrans (RGB × Int) (fun a b => a.2 ≤ b.2) := ⟨fun a b c h1 h2 => le_trans h1 h2⟩
  rcases hs : sortStops stops with _ | ⟨⟨c0, p0⟩, rest⟩
  · exfalso
    apply hne
    have h0 := List.length_insertionSort (fun (a b : RGB × Int) => a.2 ≤ b.2) stops
    rw [show List.insertionSort (fun (a b : RGB × Int) => a.2 ≤ b.2) stops
        = sortStops stops from rfl, hs] at h0
    exact List.length_eq_zero.mp h0.symm
  have hperm := List.perm_insertionSort (fun (a b : RGB × Int) => a.2 ≤ b.2) stops
  rw [show List.insertionSort (fun (a b : RGB × Int) => a.2 ≤ b.2) stops
      = sortStops stops from rfl, hs] at hperm
  have hmem : ∀ s ∈ ((c0, p0) :: rest : List (RGB × Int)), 0 ≤ s.2 ∧ s.2 ≤ 100 :=
    fun s hsm => hrange s (hperm.subset hsm)
  have hsorted : List.Sorted (fun (a b : RGB × Int) => a.2 ≤ b.2)
      (((c0, p0) : RGB × Int) :: rest) := by
    rw [← hs]
    exact List.sorted_insertionSort _ stops
  rcases hL : rest.getLastD (c0, p0) with ⟨cl, pl⟩
  have hpm_last : (rest.map Prod.snd).getLastD p0 = pl := by
    have h := getLastD_map Prod.snd rest (c0, p0)
    rw [hL] at h
    exact h
  have hlmem : ((cl, pl) : RGB × Int) ∈ ((c0, p0) :: rest : List (RGB × Int)) := by
    rw [← hL]
    exact List.getLastD_mem_cons rest (c0, p0)
  have hp0 : 0 ≤ p0 ∧ p0 ≤ 100 := hmem (c0, p0) (by simp)
  have hpl : 0 ≤ pl ∧ pl ≤ 100 := hmem (cl, pl) hlmem
  simp only [adv_gradient, hs] at hok
  rw [adv_gradient_sorted_eq, hL] at hok
  rcases hg : gradSegs (c0 :: rest.map Prod.fst)
      ((diffs (p0 :: rest.map Prod.snd)).map fun (i : Int) =>
        pyround ((i : ℚ) / (100 : ℚ) * (steps : ℚ))) with e | mid <;> rw [hg] at hok
  · cases hok
  simp only at hok
  injection hok with hok
  have hmidlen : mid.length
      = (((diffs (p0 :: rest.map Prod.snd)).map fun (i : Int) =>
          pyround ((i : ℚ) / (100 : ℚ) * (steps : ℚ))).map Int.toNat).sum :=
    gradSegs_length _ _ _ hg
  -- the complete span list, synthetic spans included
  set S : List Int := (if p0 = 0 then [] else [p0]) ++ diffs (p0 :: rest.map Prod.snd)
      ++ (if pl = 100 then [] else [100 - pl]) with hS
  -- the returned length is the total truncated allocation over all spans
  have hres : res.length
      = ((S.map fun (i : Int) => pyround ((i : ℚ) / (100 : ℚ) * (steps : ℚ))).map
          Int.toNat).sum := by
    rw [← hok, hS]
    simp only [List.length_append, List.map_append, List.sum_append,
      apply_ite List.length,
      apply_ite (List.map fun (i : Int) => pyround ((i : ℚ) / (100 : ℚ) * (steps : ℚ))),
      apply_ite (List.map Int.toNat), apply_ite List.sum, List.length_replicate,
      List.map_cons, List.map_nil, List.sum_cons, List.sum_nil, List.length_nil,
      Nat.add_zero, hmidlen]
  -- the spans total one hundred
  have hds : (diffs (p0 :: rest.map Prod.snd)).sum = pl - p0 := by
    rw [diffs_sum, hpm_last]
  have hSsum : S.sum = 100 := by
    rw [hS]
    simp only [List.sum_append, apply_ite List.sum, List.sum_cons, List.sum_nil, hds]
    split_ifs <;> omega
  -- every span is non-negative
  have hSnn : ∀ x ∈ S, 0 ≤ x := by
    intro x hx
    rw [hS] at hx
    have hsnd : List.Sorted (fun (a b : Int) => a ≤ b) (p0 :: rest.map Prod.snd) :=
      List.Pairwise.map Prod.snd (fun a b hab => hab) hsorted
    rcases List.mem_append.mp hx with hx1 | hx2
    · rcases List.mem_append.mp hx1 with hx3 | hx4
      · by_cases h1 : p0 = 0
        · rw [if_pos h1] at hx3
          cases hx3
        · rw [if_neg h1] at hx3
          rw [List.mem_singleton.mp hx3]
          exact hp0.1
      · exact diffs_nonneg hsnd x hx4
    · by_cases h2 : pl = 100
      · rw [if_pos h2] at hx2
        cases hx2
      · rw [if_neg h2] at hx2
        rw [List.mem_singleton.mp hx2]
        omega
  -- every allocation is non-negative
  have hAnn : ∀ y ∈ S.map fun (i : Int) => pyround ((i : ℚ) / (100 : ℚ) * (steps : ℚ)),
      0 ≤ y := by
    intro y hy
    rcases List.mem_map.mp hy with ⟨x, hx, rfl⟩
    apply pyround_nonneg
    have hx0 : (0 : ℚ) ≤ (x : ℚ) := by exact_mod_cast hSnn x hx
    have hst : (0 : ℚ) ≤ (steps : ℚ) := by exact_mod_cast le_of_lt hpos
    positivity
  have hcastsum :
      (((S.map fun (i : Int) => pyround ((i : ℚ) / (100 : ℚ) * (steps : ℚ))).map
          Int.toNat).sum : ℤ)
        = (S.map fun (i : Int) => pyround ((i : ℚ) / (100 : ℚ) * (steps : ℚ))).sum :=
    sum_toNat_eq hAnn
  -- the rounding bound over the whole span list
  have hb := alloc_sum_bound S steps
  rw [hSsum] at hb
  have h100 : (((100 : ℤ)) : ℚ) / 100 * (steps : ℚ) = ((steps : ℤ) : ℚ) := by norm_num
  rw [h100] at hb
  have hZ : |(S.map fun (i : Int) => pyround ((i : ℚ) / (100 : ℚ) * (steps : ℚ))).sum - steps|
      ≤ (S.length : ℤ) := by
    have hq : ((|(S.map fun (i : Int) =>
          pyround ((i : ℚ) / (100 : ℚ) * (steps : ℚ))).sum - steps| : ℤ) : ℚ)
        ≤ ((S.length : ℤ) : ℚ) := by
      push_cast
      push_cast at hb
      have hl2 : (0 : ℚ) ≤ (S.length : ℚ) := by positivity
      linarith
    exact_mod_cast hq
  -- the number of segments is the number of spans
  have hmlen : (markers (((c0, p0) : RGB × Int) :: rest)).length = S.length + 1 := by
    have hm : markers (((c0, p0) : RGB × Int) :: rest)
        = (if p0 = 0 then ([] : List Int) else [0]) ++ (p0 :: rest.map Prod.snd)
          ++ (if pl = 100 then ([] : List Int) else [100]) := by
      simp only [markers, List.headD_cons, List.getLastD_cons, List.map_cons, hL]
    rw [hm, hS]
    have hdl : (diffs (p0 :: rest.map Prod.snd)).length = (rest.map Prod.snd).length :=
      diffs_length p0 (rest.map Prod.snd)
    simp only [List.length_append, apply_ite List.length, List.length_cons,
      List.length_nil, List.length_singleton, hdl]
    split_ifs <;> omega
  rw [hmlen]
  have hresz : (res.length : ℤ)
      = (S.map fun (i : Int) => pyround ((i : ℚ) / (100 : ℚ) * (steps : ℚ))).sum := by
    rw [hres, hcastsum]
  rw [hresz]
  push_cast
  push_cast at hZ
  linarith

/-- Witness for C4: two stops at 0 and 100 percent with three steps; the
returned list has exactly three samples and the marker list has two entries,
so the deviation 0 is within the one-segment tolerance. -/
theorem adv_gradient_length_bound_witness :
    ((([((⟨255, 0, 0⟩ : RGB), (0 : Int)), ((⟨0, 0, 255⟩ : RGB), (100 : Int))]
        : List (RGB × Int)) ≠ []) ∧
      (∀ s ∈ ([((⟨255, 0, 0⟩ : RGB), (0 : Int)), ((⟨0, 0, 255⟩ : RGB), (100 : Int))]
        : List (RGB × Int)), 0 ≤ s.2 ∧ s.2 ≤ 100) ∧
      (0 : ℤ) < 3 ∧
      adv_gradient [((⟨255, 0, 0⟩ : RGB), (0 : Int)), ((⟨0, 0, 255⟩ : RGB), (100 : Int))] 3
        = .ok [⟨255, 0, 0⟩, ⟨127, 0, 127⟩, ⟨0, 0, 255⟩]) ∧
    |((([⟨255, 0, 0⟩, ⟨127, 0, 127⟩, ⟨0, 0, 255⟩] : List RGB).length : ℤ) - 3)|
      ≤ ((markers (sortStops
          [((⟨255, 0, 0⟩ : RGB), (0 : Int)), ((⟨0, 0, 255⟩ : RGB), (100 : Int))])).length : ℤ)
        - 1 := by
  have h1 : (([((⟨255, 0, 0⟩ : RGB), (0 : Int)), ((⟨0, 0, 255⟩ : RGB), (100 : Int))]
      : List (RGB × Int)) ≠ []) := List.cons_ne_nil _ _
  have h2 : ∀ s ∈ ([((⟨255, 0, 0⟩ : RGB), (0 : Int)), ((⟨0, 0, 255⟩ : RGB), (100 : Int))]
      : List (RGB × Int)), 0 ≤ s.2 ∧ s.2 ≤ 100 := by
    intro s hs
    rcases List.mem_cons.mp hs with rfl | hs2
    · norm_num
    rcases List.mem_cons.mp hs2 with rfl | hs3
    · norm_num
    cases hs3
  have h4 : adv_gradient [((⟨255, 0, 0⟩ : RGB), (0 : Int)), ((⟨0, 0, 255⟩ : RGB), (100 : Int))] 3
      = .ok [⟨255, 0, 0⟩, ⟨127, 0, 127⟩, ⟨0, 0, 255⟩] := by
    norm_num [adv_gradient, adv_gradient_sorted, sortStops, List.insertionSort,
      List.orderedInsert, markers, diffs, pyround, gradSegs, gradientE, gradient, int_trunc,
      show (3 : Int).toNat = 3 from rfl, List.range_succ, List.replicate]
  exact ⟨⟨h1, h2, by norm_num, h4⟩,
    adv_gradient_length_bound _ 3 h1 h2 (by norm_num) _ h4⟩

end BetterKeyboard
